import Mathlib

/-!
Shallow embedding of `.github/actions/deployment-check/index.js`:
the deployment health-verification retry protocol (endpoint polling with
bounded retries and fixed delay, aggregated pass/fail reporting).

The network is modelled as a deterministic oracle
`net : String → Nat → HttpEvent` giving, for a probe URL and a 0-based
attempt number, the decisive event observed by that HTTPS GET: a response
with a status code and body, a connection error, or a timeout.
-/

namespace DeploymentCheck

/-- The decisive event observed by one HTTPS GET issued by `checkEndpoint`. -/
inductive HttpEvent where
  | response (statusCode : Nat) (data : String)
  | connError (message : String)
  | timeout
deriving DecidableEq, Repr

/-- The value `checkEndpoint` resolves with in the 2xx case:
`{ statusCode: response.statusCode, data: data }`. -/
structure HttpResponse where
  statusCode : Nat
  data : String
deriving DecidableEq, Repr

/-- An action performed by one of the event handlers installed by
`checkEndpoint` on the in-flight request / promise. -/
inductive PromiseAction where
  | destroyRequest
  | resolveWith (r : HttpResponse)
  | rejectWith (message : String)
deriving DecidableEq, Repr

/-- The `response.on('end')` handler: resolve on a 2xx status code,
reject with `HTTP Status: ${statusCode}` otherwise. -/
def onResponseEnd (statusCode : Nat) (data : String) : List PromiseAction :=
  if 200 ≤ statusCode ∧ statusCode < 300 then
    [PromiseAction.resolveWith ⟨statusCode, data⟩]
  else
    [PromiseAction.rejectWith ("HTTP Status: " ++ toString statusCode)]

/-- The `request.on('error')` handler: reject with the error's message. -/
def onRequestError (message : String) : List PromiseAction :=
  [PromiseAction.rejectWith message]

/-- The `request.on('timeout')` handler: destroy the in-flight request,
then reject with `Request timed out`. -/
def onRequestTimeout : List PromiseAction :=
  [PromiseAction.destroyRequest, PromiseAction.rejectWith "Request timed out"]

/-- The actions `checkEndpoint`'s handlers perform for the decisive event. -/
def checkEndpointActions : HttpEvent → List PromiseAction
  | HttpEvent.response statusCode data => onResponseEnd statusCode data
  | HttpEvent.connError message => onRequestError message
  | HttpEvent.timeout => onRequestTimeout

/-- How the promise settles given the performed actions: the first
`resolve`/`reject` wins; `destroy` does not itself settle the promise. -/
def settle : List PromiseAction → Option (Except String HttpResponse)
  | [] => none
  | PromiseAction.destroyRequest :: rest => settle rest
  | PromiseAction.resolveWith r :: _ => some (Except.ok r)
  | PromiseAction.rejectWith m :: _ => some (Except.error m)

/-- The settled value of the promise returned by `checkEndpoint` when the
decisive event for the request is `ev`.  Every handler settles the promise,
so the `none` fallback below is unreachable (proved in
`settle_checkEndpointActions_isSome`). -/
def checkEndpoint (ev : HttpEvent) : Except String HttpResponse :=
  match settle (checkEndpointActions ev) with
  | some r => r
  | none => Except.error "promise never settled"

/-- One probe attempt of the `run` loop: `await checkEndpoint(url)` where
the network answers attempt `k` on `url` with `net url k`. -/
def probeTarget (net : String → Nat → HttpEvent) (url : String) (k : Nat) :
    Except String HttpResponse :=
  checkEndpoint (net url k)

/-- One entry pushed onto `results`: either
`{ endpoint, status: 'healthy', attempts }` or
`{ endpoint, status: 'unhealthy', error }`. -/
inductive Report where
  | healthy (endpoint : String) (attempts : Nat)
  | unhealthy (endpoint : String) (error : String)
deriving DecidableEq, Repr

/-- The `endpoint` field of a report (the untrimmed list element). -/
def Report.endpoint : Report → String
  | Report.healthy e _ => e
  | Report.unhealthy e _ => e

/-- Whether a report has `status: 'healthy'`. -/
def Report.isHealthy : Report → Bool
  | Report.healthy _ _ => true
  | Report.unhealthy _ _ => false

/-- JavaScript `String.prototype.trim()`: strip whitespace from both ends. -/
def jsTrim (s : String) : String :=
  String.mk
    (((s.data.dropWhile Char.isWhitespace).reverse.dropWhile Char.isWhitespace).reverse)

/-- The message of the error thrown when a target exhausts its retries:
`Failed to verify endpoint ${endpoint} after ${maxRetries} attempts: ${msg}`. -/
def failMessage (endpoint : String) (maxRetries : Nat) (msg : String) : String :=
  "Failed to verify endpoint " ++ endpoint ++ " after " ++ toString maxRetries
    ++ " attempts: " ++ msg

/-- Trace of the `while (retries < maxRetries && !success)` loop for one
target: the reports it pushes, the number of probe attempts it issues, the
sleep durations (milliseconds) it awaits between attempts, and the message
of the error it throws on retry exhaustion (if any). -/
structure TargetTrace where
  reports : List Report
  attemptsIssued : Nat
  sleeps : List Nat
  thrown : Option String
deriving DecidableEq, Repr

/-- The per-target `while` loop of `run`, entered with counter `retries`:
while `retries < maxRetries` and no success yet, probe
`endpoint.trim()`; on success push a `healthy` report with
`attempts = retries + 1` and stop; on failure increment `retries`, and
either (having reached `maxRetries`) push an `unhealthy` report with the
last error message and throw, or sleep `retryDelay * 1000` milliseconds
and iterate. -/
def checkTarget (net : String → Nat → HttpEvent) (endpoint : String)
    (maxRetries retryDelay : Nat) (retries : Nat) : TargetTrace :=
  if _h : retries < maxRetries then
    match probeTarget net (jsTrim endpoint) retries with
    | Except.ok _ =>
        { reports := [Report.healthy endpoint (retries + 1)],
          attemptsIssued := 1, sleeps := [], thrown := none }
    | Except.error msg =>
        if retries + 1 = maxRetries then
          { reports := [Report.unhealthy endpoint msg],
            attemptsIssued := 1, sleeps := [],
            thrown := some (failMessage endpoint maxRetries msg) }
        else
          let rest := checkTarget net endpoint maxRetries retryDelay (retries + 1)
          { reports := rest.reports,
            attemptsIssued := rest.attemptsIssued + 1,
            sleeps := retryDelay * 1000 :: rest.sleeps,
            thrown := rest.thrown }
  else
    { reports := [], attemptsIssued := 0, sleeps := [], thrown := none }
termination_by maxRetries - retries
decreasing_by omega

/-- State accumulated by the `for (const endpoint of endpoints)` loop:
the `results` list, all sleeps awaited, the number of probe attempts
issued per processed target (in order), and the thrown error (if any),
which aborts the loop. -/
structure RunState where
  results : List Report
  sleeps : List Nat
  attemptCounts : List Nat
  thrown : Option String
deriving DecidableEq, Repr

/-- The `for` loop of `run` over the endpoint list: process targets in
order, each with a fresh `retries = 0` counter; a thrown error aborts the
loop immediately (later targets are not processed). -/
def runLoop (net : String → Nat → HttpEvent) (maxRetries retryDelay : Nat) :
    List String → RunState
  | [] => { results := [], sleeps := [], attemptCounts := [], thrown := none }
  | endpoint :: rest =>
    let t := checkTarget net endpoint maxRetries retryDelay 0
    match t.thrown with
    | some m =>
        { results := t.reports, sleeps := t.sleeps,
          attemptCounts := [t.attemptsIssued], thrown := some m }
    | none =>
        let s := runLoop net maxRetries retryDelay rest
        { results := t.reports ++ s.results,
          sleeps := t.sleeps ++ s.sleeps,
          attemptCounts := t.attemptsIssued :: s.attemptCounts,
          thrown := s.thrown }

/-- Observable outcome of one invocation of `run`: the built `results`
list, sleeps, per-target attempt counts, the `results` output (set, with
`status` and `timestamp`, only when the `try` block completes), and the
`setFailed` message (set only when an error was thrown). -/
structure RunTrace where
  results : List Report
  sleeps : List Nat
  attemptCounts : List Nat
  outputs : Option (List Report)
  failed : Option String
deriving DecidableEq, Repr

/-- The body of `run` after input parsing: loop over the endpoints inside
`try`; if nothing is thrown, set the outputs (`status`, `timestamp`,
`results`); if an error is thrown, set none of the outputs and call
`core.setFailed` with `Deployment check failed: ${error.message}`. -/
def runAction (net : String → Nat → HttpEvent) (endpoints : List String)
    (maxRetries retryDelay : Nat) : RunTrace :=
  let s := runLoop net maxRetries retryDelay endpoints
  match s.thrown with
  | none =>
      { results := s.results, sleeps := s.sleeps,
        attemptCounts := s.attemptCounts,
        outputs := some s.results, failed := none }
  | some m =>
      { results := s.results, sleeps := s.sleeps,
        attemptCounts := s.attemptCounts,
        outputs := none, failed := some ("Deployment check failed: " ++ m) }

/-- Digit-prefix accumulator for `parseInt` (radix 10): consume leading
decimal digits, returning `none` when no digit was consumed. -/
def parseDigits : List Char → Option Nat → Option Nat
  | [], acc => acc
  | c :: cs, acc =>
      if c.isDigit then
        parseDigits cs (some (acc.getD 0 * 10 + (c.toNat - 48)))
      else
        acc

/-- JavaScript `parseInt(s)` (radix 10): skip surrounding whitespace, read
an optional sign and then the longest decimal-digit prefix; `none` stands
for `NaN` (no digits). -/
def jsParseInt (s : String) : Option Int :=
  match (jsTrim s).data with
  | '-' :: rest => (parseDigits rest none).map (fun n => -(n : Int))
  | '+' :: rest => (parseDigits rest none).map (fun n => (n : Int))
  | cs => (parseDigits cs none).map (fun n => (n : Int))

/-- The input-parsing idiom `parseInt(core.getInput(name)) || default`:
both `NaN` and `0` are falsy in JavaScript, so both fall back to the
default. -/
def parseIntInput (s : String) (default : Int) : Int :=
  match jsParseInt s with
  | none => default
  | some 0 => default
  | some v => v

/-- Accumulator for JavaScript `String.prototype.split(',')`: `acc` holds
the characters of the current piece in reverse. -/
def splitCommaAux : List Char → List Char → List String
  | [], acc => [String.mk acc.reverse]
  | c :: cs, acc =>
      if c = ',' then String.mk acc.reverse :: splitCommaAux cs []
      else splitCommaAux cs (c :: acc)

/-- `core.getInput('endpoints').split(',')`. -/
def splitEndpoints (s : String) : List String :=
  splitCommaAux s.data []

/-- `run` from its raw string inputs: split the endpoint list on commas,
parse `max-retries` (default 5) and `retry-delay` (default 30) with the
`parseInt(...) || default` idiom, then run the check loop.  A negative
parsed value makes the `while` guard `retries < maxRetries` immediately
false exactly as the value `0` does, so clamping with `Int.toNat`
preserves the loop's behaviour. -/
def runFromInputs (net : String → Nat → HttpEvent)
    (endpointsInput maxRetriesInput retryDelayInput : String) : RunTrace :=
  runAction net (splitEndpoints endpointsInput)
    (parseIntInput maxRetriesInput 5).toNat
    (parseIntInput retryDelayInput 30).toNat

/-! ### Unfolding lemmas for the per-target loop -/

theorem checkTarget_of_not_lt (net : String → Nat → HttpEvent) (e : String)
    (mR d retries : Nat) (h : ¬ retries < mR) :
    checkTarget net e mR d retries
      = { reports := [], attemptsIssued := 0, sleeps := [], thrown := none } := by
  rw [checkTarget]
  simp [h]

theorem checkTarget_of_ok (net : String → Nat → HttpEvent) (e : String)
    (mR d retries : Nat) (r : HttpResponse) (h : retries < mR)
    (hok : probeTarget net (jsTrim e) retries = Except.ok r) :
    checkTarget net e mR d retries
      = { reports := [Report.healthy e (retries + 1)], attemptsIssued := 1,
          sleeps := [], thrown := none } := by
  rw [checkTarget]
  simp [h, hok]

theorem checkTarget_of_error_last (net : String → Nat → HttpEvent) (e : String)
    (mR d retries : Nat) (msg : String) (h : retries + 1 = mR)
    (herr : probeTarget net (jsTrim e) retries = Except.error msg) :
    checkTarget net e mR d retries
      = { reports := [Report.unhealthy e msg], attemptsIssued := 1, sleeps := [],
          thrown := some (failMessage e mR msg) } := by
  have hlt : retries < mR := by omega
  rw [checkTarget]
  simp [hlt, herr, h]

theorem checkTarget_of_error_step (net : String → Nat → HttpEvent) (e : String)
    (mR d retries : Nat) (msg : String) (h1 : retries < mR) (h2 : retries + 1 ≠ mR)
    (herr : probeTarget net (jsTrim e) retries = Except.error msg) :
    checkTarget net e mR d retries
      = { reports := (checkTarget net e mR d (retries + 1)).reports,
          attemptsIssued := (checkTarget net e mR d (retries + 1)).attemptsIssued + 1,
          sleeps := d * 1000 :: (checkTarget net e mR d (retries + 1)).sleeps,
          thrown := (checkTarget net e mR d (retries + 1)).thrown } := by
  conv_lhs => rw [checkTarget]
  simp [h1, herr, h2]

/-! ### Characterization of the per-target loop -/

/-- The loop never issues more attempts than the remaining retry budget. -/
theorem checkTarget_attempts_le (net : String → Nat → HttpEvent) (e : String)
    (mR d : Nat) :
    ∀ start, (checkTarget net e mR d start).attemptsIssued ≤ mR - start := by
  have H : ∀ n start, mR - start ≤ n →
      (checkTarget net e mR d start).attemptsIssued ≤ mR - start := by
    intro n
    induction n with
    | zero =>
      intro start hle
      rw [checkTarget_of_not_lt net e mR d start (by omega)]
      exact Nat.zero_le _
    | succ n ih =>
      intro start hle
      by_cases h : start < mR
      · cases hp : probeTarget net (jsTrim e) start with
        | ok r =>
          rw [checkTarget_of_ok net e mR d start r h hp]
          simp only []
          omega
        | error msg =>
          by_cases h2 : start + 1 = mR
          · rw [checkTarget_of_error_last net e mR d start msg h2 hp]
            simp only []
            omega
          · rw [checkTarget_of_error_step net e mR d start msg h h2 hp]
            simp only []
            have := ih (start + 1) (by omega)
            omega
      · rw [checkTarget_of_not_lt net e mR d start h]
        exact Nat.zero_le _
  exact fun start => H (mR - start) start le_rfl

/-- Once entered (`retries < maxRetries`), the loop issues at least one attempt. -/
theorem checkTarget_attempts_pos (net : String → Nat → HttpEvent) (e : String)
    (mR d start : Nat) (h : start < mR) :
    1 ≤ (checkTarget net e mR d start).attemptsIssued := by
  cases hp : probeTarget net (jsTrim e) start with
  | ok r =>
    rw [checkTarget_of_ok net e mR d start r h hp]
  | error msg =>
    by_cases h2 : start + 1 = mR
    · rw [checkTarget_of_error_last net e mR d start msg h2 hp]
    · rw [checkTarget_of_error_step net e mR d start msg h h2 hp]
      simp only []
      omega

/-- The loop sleeps `retryDelay * 1000` milliseconds exactly once between
consecutive attempts: one sleep fewer than attempts issued. -/
theorem checkTarget_sleeps_eq (net : String → Nat → HttpEvent) (e : String)
    (mR d : Nat) :
    ∀ start, (checkTarget net e mR d start).sleeps
      = List.replicate ((checkTarget net e mR d start).attemptsIssued - 1) (d * 1000) := by
  have H : ∀ n start, mR - start ≤ n →
      (checkTarget net e mR d start).sleeps
        = List.replicate ((checkTarget net e mR d start).attemptsIssued - 1) (d * 1000) := by
    intro n
    induction n with
    | zero =>
      intro start hle
      rw [checkTarget_of_not_lt net e mR d start (by omega)]
      rfl
    | succ n ih =>
      intro start hle
      by_cases h : start < mR
      · cases hp : probeTarget net (jsTrim e) start with
        | ok r =>
          rw [checkTarget_of_ok net e mR d start r h hp]
          rfl
        | error msg =>
          by_cases h2 : start + 1 = mR
          · rw [checkTarget_of_error_last net e mR d start msg h2 hp]
            rfl
          · rw [checkTarget_of_error_step net e mR d start msg h h2 hp]
            simp only []
            have hpos : 1 ≤ (checkTarget net e mR d (start + 1)).attemptsIssued :=
              checkTarget_attempts_pos net e mR d (start + 1) (by omega)
            rw [ih (start + 1) (by omega)]
            rw [show (checkTarget net e mR d (start + 1)).attemptsIssued + 1 - 1
                  = ((checkTarget net e mR d (start + 1)).attemptsIssued - 1) + 1 by omega]
            rw [List.replicate_succ]
      · rw [checkTarget_of_not_lt net e mR d start h]
        rfl
  exact fun start => H (mR - start) start le_rfl

/-- Shape of a completed per-target loop: it pushes exactly one report;
a `healthy` report records `attempts = start + attemptsIssued` and throws
nothing, an `unhealthy` report comes with the thrown exhaustion error and a
consumed budget of exactly `maxRetries`. -/
theorem checkTarget_shape (net : String → Nat → HttpEvent) (e : String)
    (mR d : Nat) :
    ∀ start, start < mR →
    (∃ a, (checkTarget net e mR d start).reports = [Report.healthy e a] ∧
        a = start + (checkTarget net e mR d start).attemptsIssued ∧
        (checkTarget net e mR d start).thrown = none) ∨
    (∃ msg, (checkTarget net e mR d start).reports = [Report.unhealthy e msg] ∧
        (checkTarget net e mR d start).thrown = some (failMessage e mR msg) ∧
        start + (checkTarget net e mR d start).attemptsIssued = mR) := by
  have H : ∀ n start, mR - start ≤ n → start < mR →
      (∃ a, (checkTarget net e mR d start).reports = [Report.healthy e a] ∧
          a = start + (checkTarget net e mR d start).attemptsIssued ∧
          (checkTarget net e mR d start).thrown = none) ∨
      (∃ msg, (checkTarget net e mR d start).reports = [Report.unhealthy e msg] ∧
          (checkTarget net e mR d start).thrown = some (failMessage e mR msg) ∧
          start + (checkTarget net e mR d start).attemptsIssued = mR) := by
    intro n
    induction n with
    | zero =>
      intro start hle h
      omega
    | succ n ih =>
      intro start hle h
      cases hp : probeTarget net (jsTrim e) start with
      | ok r =>
        left
        rw [checkTarget_of_ok net e mR d start r h hp]
        exact ⟨start + 1, rfl, rfl, rfl⟩
      | error msg =>
        by_cases h2 : start + 1 = mR
        · right
          rw [checkTarget_of_error_last net e mR d start msg h2 hp]
          exact ⟨msg, rfl, rfl, h2⟩
        · rw [checkTarget_of_error_step net e mR d start msg h h2 hp]
          simp only []
          rcases ih (start + 1) (by omega) (by omega) with ⟨a, hrep, ha, hth⟩ | ⟨m, hrep, hth, hcnt⟩
          · left
            exact ⟨a, hrep, by omega, hth⟩
          · right
            exact ⟨m, hrep, hth, by omega⟩
  exact fun start => H (mR - start) start le_rfl

/-- If the loop throws, the single report it pushed is `unhealthy` and the
thrown message is the exhaustion message for that report's error. -/
theorem checkTarget_thrown_some (net : String → Nat → HttpEvent) (e : String)
    (mR d start : Nat) (m : String)
    (h : (checkTarget net e mR d start).thrown = some m) :
    ∃ msg, (checkTarget net e mR d start).reports = [Report.unhealthy e msg] ∧
      m = failMessage e mR msg := by
  by_cases hlt : start < mR
  · rcases checkTarget_shape net e mR d start hlt with ⟨a, _, _, hth⟩ | ⟨msg, hrep, hth, _⟩
    · rw [hth] at h
      exact absurd h (by simp)
    · rw [hth] at h
      exact ⟨msg, hrep, by injection h with h'; exact h'.symm⟩
  · rw [checkTarget_of_not_lt net e mR d start hlt] at h
    exact absurd h (by simp)

/-- Full trace of a per-target loop whose first successful probe is the
0-based attempt `k`: a `healthy` report with `attempts = k + 1`, exactly
`k + 1 - start` attempts issued, one sleep between consecutive attempts,
and nothing thrown. -/
theorem checkTarget_first_ok (net : String → Nat → HttpEvent) (e : String)
    (mR d k : Nat) (r : HttpResponse) (hkm : k < mR)
    (hok : probeTarget net (jsTrim e) k = Except.ok r) :
    ∀ start, start ≤ k →
    (∀ j, start ≤ j → j < k → ∃ m, probeTarget net (jsTrim e) j = Except.error m) →
    checkTarget net e mR d start
      = { reports := [Report.healthy e (k + 1)], attemptsIssued := k + 1 - start,
          sleeps := List.replicate (k - start) (d * 1000), thrown := none } := by
  have H : ∀ n start, k - start ≤ n → start ≤ k →
      (∀ j, start ≤ j → j < k → ∃ m, probeTarget net (jsTrim e) j = Except.error m) →
      checkTarget net e mR d start
        = { reports := [Report.healthy e (k + 1)], attemptsIssued := k + 1 - start,
            sleeps := List.replicate (k - start) (d * 1000), thrown := none } := by
    intro n
    induction n with
    | zero =>
      intro start hle hsk hbef
      have hstart : start = k := by omega
      subst hstart
      rw [checkTarget_of_ok net e mR d start r hkm hok]
      simp
    | succ n ih =>
      intro start hle hsk hbef
      by_cases hsk' : start = k
      · subst hsk'
        rw [checkTarget_of_ok net e mR d start r hkm hok]
        simp
      · have hlt : start < k := by omega
        obtain ⟨m, hm⟩ := hbef start le_rfl hlt
        have h1 : start < mR := by omega
        have h2 : start + 1 ≠ mR := by omega
        rw [checkTarget_of_error_step net e mR d start m h1 h2 hm]
        rw [ih (start + 1) (by omega) (by omega)
          (fun j hj1 hj2 => hbef j (by omega) hj2)]
        rw [show k - start = (k - (start + 1)) + 1 by omega, List.replicate_succ,
          show k + 1 - start = (k + 1 - (start + 1)) + 1 by omega]
  exact fun start => H (k - start) start le_rfl

/-- Full trace of a per-target loop all of whose probes fail: an
`unhealthy` report carrying the message of the last attempt
(0-based attempt `maxRetries - 1`), the whole remaining budget consumed,
and the exhaustion error thrown. -/
theorem checkTarget_all_error (net : String → Nat → HttpEvent) (e : String)
    (mR d : Nat) (m : Nat → String)
    (hf : ∀ j, j < mR → probeTarget net (jsTrim e) j = Except.error (m j)) :
    ∀ start, start < mR →
    checkTarget net e mR d start
      = { reports := [Report.unhealthy e (m (mR - 1))], attemptsIssued := mR - start,
          sleeps := List.replicate (mR - 1 - start) (d * 1000),
          thrown := some (failMessage e mR (m (mR - 1))) } := by
  have H : ∀ n start, mR - start ≤ n → start < mR →
      checkTarget net e mR d start
        = { reports := [Report.unhealthy e (m (mR - 1))], attemptsIssued := mR - start,
            sleeps := List.replicate (mR - 1 - start) (d * 1000),
            thrown := some (failMessage e mR (m (mR - 1))) } := by
    intro n
    induction n with
    | zero =>
      intro start hle h
      omega
    | succ n ih =>
      intro start hle h
      by_cases h2 : start + 1 = mR
      · rw [checkTarget_of_error_last net e mR d start (m start) h2 (hf start h)]
        rw [show mR - 1 = start by omega, Nat.sub_self, List.replicate_zero,
          show mR - start = 1 by omega]
      · rw [checkTarget_of_error_step net e mR d start (m start) h h2 (hf start h)]
        rw [ih (start + 1) (by omega) (by omega)]
        rw [show mR - 1 - start = (mR - 1 - (start + 1)) + 1 by omega, List.replicate_succ,
          show mR - start = (mR - (start + 1)) + 1 by omega]
  exact fun start => H (mR - start) start le_rfl

/-- If some probe within the budget succeeds, the loop does not throw. -/
theorem checkTarget_thrown_none_of_ok (net : String → Nat → HttpEvent) (e : String)
    (mR d : Nat)
    (hex : ∃ k, k < mR ∧ (probeTarget net (jsTrim e) k).isOk = true) :
    (checkTarget net e mR d 0).thrown = none := by
  have hex' : ∃ k, (probeTarget net (jsTrim e) k).isOk = true := by
    obtain ⟨k, _, hk⟩ := hex
    exact ⟨k, hk⟩
  set k0 := Nat.find hex' with hk0
  have hQ : (probeTarget net (jsTrim e) k0).isOk = true := Nat.find_spec hex'
  have hk0lt : k0 < mR := by
    obtain ⟨k, hkm, hk⟩ := hex
    exact lt_of_le_of_lt (Nat.find_min' hex' hk) hkm
  obtain ⟨r, hr⟩ : ∃ r, probeTarget net (jsTrim e) k0 = Except.ok r := by
    cases hp : probeTarget net (jsTrim e) k0 with
    | ok r => exact ⟨r, rfl⟩
    | error msg =>
      rw [hp] at hQ
      simp [Except.isOk, Except.toBool] at hQ
  have hbef : ∀ j, 0 ≤ j → j < k0 → ∃ m, probeTarget net (jsTrim e) j = Except.error m := by
    intro j _ hj
    have hmin := Nat.find_min hex' hj
    cases hp : probeTarget net (jsTrim e) j with
    | ok r =>
      rw [hp] at hmin
      exact absurd rfl hmin
    | error msg => exact ⟨msg, rfl⟩
  rw [checkTarget_first_ok net e mR d k0 r hk0lt hr 0 (Nat.zero_le _) hbef]

/-- The loop reads the network only at the trimmed URL `jsTrim endpoint`:
two networks agreeing there produce identical traces. -/
theorem checkTarget_net_congr (net net' : String → Nat → HttpEvent) (e : String)
    (mR d : Nat) (hnet : ∀ k, net (jsTrim e) k = net' (jsTrim e) k) :
    ∀ start, checkTarget net e mR d start = checkTarget net' e mR d start := by
  have H : ∀ n start, mR - start ≤ n →
      checkTarget net e mR d start = checkTarget net' e mR d start := by
    intro n
    induction n with
    | zero =>
      intro start hle
      rw [checkTarget_of_not_lt net e mR d start (by omega),
        checkTarget_of_not_lt net' e mR d start (by omega)]
    | succ n ih =>
      intro n' hle
      by_cases h : n' < mR
      · have hp : probeTarget net (jsTrim e) n' = probeTarget net' (jsTrim e) n' := by
          unfold probeTarget
          rw [hnet n']
        cases hp' : probeTarget net' (jsTrim e) n' with
        | ok r =>
          rw [checkTarget_of_ok net e mR d n' r h (hp.trans hp'),
            checkTarget_of_ok net' e mR d n' r h hp']
        | error msg =>
          by_cases h2 : n' + 1 = mR
          · rw [checkTarget_of_error_last net e mR d n' msg h2 (hp.trans hp'),
              checkTarget_of_error_last net' e mR d n' msg h2 hp']
          · rw [checkTarget_of_error_step net e mR d n' msg h h2 (hp.trans hp'),
              checkTarget_of_error_step net' e mR d n' msg h h2 hp']
            rw [ih (n' + 1) (by omega)]
      · rw [checkTarget_of_not_lt net e mR d n' h,
          checkTarget_of_not_lt net' e mR d n' h]
  exact fun start => H (mR - start) start le_rfl

/-! ### Characterization of the endpoint loop -/

/-- Every sleep awaited during the run lasts `retryDelay * 1000` ms. -/
theorem runLoop_sleeps_mem (net : String → Nat → HttpEvent) (mR d : Nat) :
    ∀ es : List String, ∀ s ∈ (runLoop net mR d es).sleeps, s = d * 1000 := by
  intro es
  induction es with
  | nil =>
    intro s hs
    simp [runLoop] at hs
  | cons e rest ih =>
    intro s hs
    rw [runLoop] at hs
    have hsl := checkTarget_sleeps_eq net e mR d 0
    cases ht : (checkTarget net e mR d 0).thrown with
    | some m =>
      simp only [ht] at hs
      rw [hsl] at hs
      exact List.eq_of_mem_replicate hs
    | none =>
      simp only [ht] at hs
      simp only [List.mem_append] at hs
      rcases hs with hs | hs
      · rw [hsl] at hs
        exact List.eq_of_mem_replicate hs
      · exact ih s hs

/-- With at least one retry allowed, the reports accumulated so far list the
processed prefix of the requested endpoints, verbatim and in order. -/
theorem runLoop_map_endpoint (net : String → Nat → HttpEvent) (mR d : Nat)
    (hmR : 1 ≤ mR) :
    ∀ es : List String,
      (runLoop net mR d es).results.map Report.endpoint
        = es.take (runLoop net mR d es).results.length := by
  intro es
  induction es with
  | nil => simp [runLoop]
  | cons e rest ih =>
    rw [runLoop]
    cases ht : (checkTarget net e mR d 0).thrown with
    | some m =>
      simp only []
      obtain ⟨msg, hrep, _⟩ := checkTarget_thrown_some net e mR d 0 m ht
      rw [hrep]
      rfl
    | none =>
      simp only []
      rcases checkTarget_shape net e mR d 0 (by omega) with ⟨a, hrep, _, _⟩ | ⟨msg, _, hth, _⟩
      · rw [hrep]
        simp only [List.cons_append, List.nil_append, List.map_cons, List.length_cons,
          List.take_succ_cons, Report.endpoint]
        rw [ih]
      · rw [hth] at ht
        exact absurd ht (by simp)

/-- If nothing was thrown (and the budget admits at least one attempt),
every requested endpoint got a report and every report is `healthy`. -/
theorem runLoop_none_complete (net : String → Nat → HttpEvent) (mR d : Nat)
    (hmR : 1 ≤ mR) :
    ∀ es : List String, (runLoop net mR d es).thrown = none →
      (runLoop net mR d es).results.length = es.length ∧
      ∀ r ∈ (runLoop net mR d es).results, r.isHealthy = true := by
  intro es
  induction es with
  | nil =>
    intro _
    exact ⟨rfl, by intro r hr; simp [runLoop] at hr⟩
  | cons e rest ih =>
    intro hnone
    rw [runLoop] at hnone ⊢
    cases ht : (checkTarget net e mR d 0).thrown with
    | some m =>
      simp only [ht] at hnone
      exact absurd hnone (by simp)
    | none =>
      simp only [ht] at hnone ⊢
      rcases checkTarget_shape net e mR d 0 (by omega) with ⟨a, hrep, _, _⟩ | ⟨msg, _, hth, _⟩
      · obtain ⟨hlen, hall⟩ := ih hnone
        rw [hrep]
        constructor
        · simp [hlen]
        · intro r hr
          simp only [List.cons_append, List.nil_append, List.mem_cons] at hr
          rcases hr with hr | hr
          · rw [hr]
            rfl
          · exact hall r hr
      · rw [hth] at ht
        exact absurd ht (by simp)

/-- If the run threw, some accumulated report is `unhealthy`. -/
theorem runLoop_some_unhealthy (net : String → Nat → HttpEvent) (mR d : Nat) :
    ∀ (es : List String) (m : String), (runLoop net mR d es).thrown = some m →
      ∃ r ∈ (runLoop net mR d es).results, r.isHealthy = false := by
  intro es
  induction es with
  | nil =>
    intro m hm
    simp [runLoop] at hm
  | cons e rest ih =>
    intro m hm
    rw [runLoop] at hm ⊢
    cases ht : (checkTarget net e mR d 0).thrown with
    | some m' =>
      simp only [ht] at hm ⊢
      obtain ⟨msg, hrep, _⟩ := checkTarget_thrown_some net e mR d 0 m' ht
      rw [hrep]
      exact ⟨Report.unhealthy e msg, by simp, rfl⟩
    | none =>
      simp only [ht] at hm ⊢
      obtain ⟨r, hr, hunh⟩ := ih m hm
      exact ⟨r, by simp [hr], hunh⟩

/-- No processed target issues more probe attempts than the retry budget. -/
theorem runLoop_counts_le (net : String → Nat → HttpEvent) (mR d : Nat) :
    ∀ es : List String, ∀ c ∈ (runLoop net mR d es).attemptCounts, c ≤ mR := by
  intro es
  induction es with
  | nil =>
    intro c hc
    simp [runLoop] at hc
  | cons e rest ih =>
    intro c hc
    rw [runLoop] at hc
    have hle : (checkTarget net e mR d 0).attemptsIssued ≤ mR := by
      have := checkTarget_attempts_le net e mR d 0
      omega
    cases ht : (checkTarget net e mR d 0).thrown with
    | some m =>
      simp only [ht] at hc
      simp only [List.mem_singleton] at hc
      omega
    | none =>
      simp only [ht] at hc
      simp only [List.mem_cons] at hc
      rcases hc with hc | hc
      · omega
      · exact ih c hc

/-- Probe attempts are issued only for targets that got a report: one
attempt count per report. -/
theorem runLoop_counts_len (net : String → Nat → HttpEvent) (mR d : Nat)
    (hmR : 1 ≤ mR) :
    ∀ es : List String,
      (runLoop net mR d es).attemptCounts.length = (runLoop net mR d es).results.length := by
  intro es
  induction es with
  | nil => rfl
  | cons e rest ih =>
    rw [runLoop]
    cases ht : (checkTarget net e mR d 0).thrown with
    | some m =>
      simp only []
      obtain ⟨msg, hrep, _⟩ := checkTarget_thrown_some net e mR d 0 m ht
      rw [hrep]
      rfl
    | none =>
      simp only []
      rcases checkTarget_shape net e mR d 0 (by omega) with ⟨a, hrep, _, _⟩ | ⟨msg, _, hth, _⟩
      · rw [hrep]
        simp [ih]
      · rw [hth] at ht
        exact absurd ht (by simp)

/-- Any `attempts` value recorded in a `healthy` report is at most the
retry budget. -/
theorem runLoop_healthy_attempts_le (net : String → Nat → HttpEvent) (mR d : Nat) :
    ∀ es : List String, ∀ r ∈ (runLoop net mR d es).results,
      ∀ e a, r = Report.healthy e a → a ≤ mR := by
  intro es
  induction es with
  | nil =>
    intro r hr
    simp [runLoop] at hr
  | cons e rest ih =>
    intro r hr
    rw [runLoop] at hr
    cases ht : (checkTarget net e mR d 0).thrown with
    | some m =>
      simp only [ht] at hr
      obtain ⟨msg, hrep, _⟩ := checkTarget_thrown_some net e mR d 0 m ht
      rw [hrep] at hr
      simp only [List.mem_singleton] at hr
      intro e' a hcontra
      rw [hr] at hcontra
      exact absurd hcontra (by simp)
    | none =>
      simp only [ht] at hr
      simp only [List.mem_append] at hr
      rcases hr with hr | hr
      · by_cases hlt : 0 < mR
        · rcases checkTarget_shape net e mR d 0 hlt with ⟨a, hrep, ha, _⟩ | ⟨msg, _, hth, _⟩
          · rw [hrep] at hr
            simp only [List.mem_singleton] at hr
            intro e' a' heq
            rw [hr] at heq
            injection heq with _ ha'
            have := checkTarget_attempts_le net e mR d 0
            omega
          · rw [hth] at ht
            exact absurd ht (by simp)
        · rw [checkTarget_of_not_lt net e mR d 0 hlt] at hr
          simp at hr
      · exact ih r hr

/-- Positional account of a run in which every target before position `i`
eventually probes successfully and the target at position `i` fails every
attempt in the budget: position `i` of `results` holds the `unhealthy`
report with the last failure's message, and the loop throws the matching
exhaustion error. -/
theorem runLoop_fail_at (net : String → Nat → HttpEvent) (mR d : Nat)
    (m : Nat → String) (hmR : 1 ≤ mR) :
    ∀ (es : List String) (i : Nat) (e : String),
      es.get? i = some e →
      (∀ j, j < i → ∀ ej, es.get? j = some ej →
        ∃ k, k < mR ∧ (probeTarget net (jsTrim ej) k).isOk = true) →
      (∀ k, k < mR → probeTarget net (jsTrim e) k = Except.error (m k)) →
      (runLoop net mR d es).results.get? i = some (Report.unhealthy e (m (mR - 1))) ∧
      (runLoop net mR d es).thrown = some (failMessage e mR (m (mR - 1))) := by
  intro es
  induction es with
  | nil =>
    intro i e hi
    simp at hi
  | cons e0 rest ih =>
    intro i e hi hprev hfail
    cases i with
    | zero =>
      have he : e0 = e := by
        simp only [List.get?] at hi
        injection hi
      subst he
      have ht := checkTarget_all_error net e0 mR d m hfail 0 (by omega)
      rw [runLoop, ht]
      exact ⟨rfl, rfl⟩
    | succ j =>
      have hhead : ∃ k, k < mR ∧ (probeTarget net (jsTrim e0) k).isOk = true :=
        hprev 0 (Nat.succ_pos j) e0 rfl
      have htn : (checkTarget net e0 mR d 0).thrown = none :=
        checkTarget_thrown_none_of_ok net e0 mR d hhead
      rw [runLoop]
      rw [htn]
      simp only []
      rcases checkTarget_shape net e0 mR d 0 (by omega) with ⟨a, hrep, _, _⟩ | ⟨msg, _, hth, _⟩
      · rw [hrep]
        have hi' : rest.get? j = some e := hi
        have hprev' : ∀ j', j' < j → ∀ ej, rest.get? j' = some ej →
            ∃ k, k < mR ∧ (probeTarget net (jsTrim ej) k).isOk = true :=
          fun j' hj' ej hej => hprev (j' + 1) (by omega) ej hej
        obtain ⟨hres, hthr⟩ := ih j e hi' hprev' hfail
        exact ⟨hres, hthr⟩
      · rw [hth] at htn
        exact absurd htn (by simp)

/-- The endpoint loop reads the network only at the trimmed URLs of the
requested endpoints. -/
theorem runLoop_net_congr (net net' : String → Nat → HttpEvent) (mR d : Nat) :
    ∀ es : List String,
      (∀ e ∈ es, ∀ k, net (jsTrim e) k = net' (jsTrim e) k) →
      runLoop net mR d es = runLoop net' mR d es := by
  intro es
  induction es with
  | nil => intro _; rfl
  | cons e rest ih =>
    intro hnet
    have hc : checkTarget net e mR d 0 = checkTarget net' e mR d 0 :=
      checkTarget_net_congr net net' e mR d (hnet e (by simp)) 0
    rw [runLoop, runLoop, hc, ih (fun e' he' k => hnet e' (by simp [he']) k)]

/-- With a budget of exactly one, the per-target loop issues exactly one
attempt and never sleeps. -/
theorem checkTarget_budget_one (net : String → Nat → HttpEvent) (e : String)
    (d : Nat) :
    (checkTarget net e 1 d 0).attemptsIssued = 1 ∧ (checkTarget net e 1 d 0).sleeps = [] := by
  have hpos := checkTarget_attempts_pos net e 1 d 0 (by omega)
  have hle := checkTarget_attempts_le net e 1 d 0
  have hone : (checkTarget net e 1 d 0).attemptsIssued = 1 := by omega
  refine ⟨hone, ?_⟩
  rw [checkTarget_sleeps_eq net e 1 d 0, hone]
  rfl

/-- With a budget of exactly one, a run never sleeps. -/
theorem runLoop_budget_one_sleeps (net : String → Nat → HttpEvent) (d : Nat) :
    ∀ es : List String, (runLoop net 1 d es).sleeps = [] := by
  intro es
  induction es with
  | nil => rfl
  | cons e rest ih =>
    rw [runLoop]
    have hsl := (checkTarget_budget_one net e d).2
    cases ht : (checkTarget net e 1 d 0).thrown with
    | some m =>
      simp only [hsl]
    | none =>
      simp only [hsl, List.nil_append]
      exact ih

/-- With a budget of exactly one, every processed target is probed exactly
once. -/
theorem runLoop_budget_one_counts (net : String → Nat → HttpEvent) (d : Nat) :
    ∀ es : List String, ∀ c ∈ (runLoop net 1 d es).attemptCounts, c = 1 := by
  intro es
  induction es with
  | nil =>
    intro c hc
    simp [runLoop] at hc
  | cons e rest ih =>
    intro c hc
    rw [runLoop] at hc
    have h1 := (checkTarget_budget_one net e d).1
    cases ht : (checkTarget net e 1 d 0).thrown with
    | some m =>
      simp only [ht, List.mem_singleton] at hc
      rw [hc, h1]
    | none =>
      simp only [ht, List.mem_cons] at hc
      rcases hc with hc | hc
      · rw [hc, h1]
      · exact ih c hc

/-! ### The try/catch wrapper -/

theorem runAction_eq_of_thrown_none (net : String → Nat → HttpEvent)
    (es : List String) (mR d : Nat) (h : (runLoop net mR d es).thrown = none) :
    runAction net es mR d
      = { results := (runLoop net mR d es).results,
          sleeps := (runLoop net mR d es).sleeps,
          attemptCounts := (runLoop net mR d es).attemptCounts,
          outputs := some (runLoop net mR d es).results, failed := none } := by
  simp only [runAction]
  rw [h]

theorem runAction_eq_of_thrown_some (net : String → Nat → HttpEvent)
    (es : List String) (mR d : Nat) (m : String)
    (h : (runLoop net mR d es).thrown = some m) :
    runAction net es mR d
      = { results := (runLoop net mR d es).results,
          sleeps := (runLoop net mR d es).sleeps,
          attemptCounts := (runLoop net mR d es).attemptCounts,
          outputs := none, failed := some ("Deployment check failed: " ++ m) } := by
  simp only [runAction]
  rw [h]

theorem runAction_results (net : String → Nat → HttpEvent)
    (es : List String) (mR d : Nat) :
    (runAction net es mR d).results = (runLoop net mR d es).results := by
  cases h : (runLoop net mR d es).thrown with
  | none => rw [runAction_eq_of_thrown_none net es mR d h]
  | some m => rw [runAction_eq_of_thrown_some net es mR d m h]

theorem runAction_sleeps (net : String → Nat → HttpEvent)
    (es : List String) (mR d : Nat) :
    (runAction net es mR d).sleeps = (runLoop net mR d es).sleeps := by
  cases h : (runLoop net mR d es).thrown with
  | none => rw [runAction_eq_of_thrown_none net es mR d h]
  | some m => rw [runAction_eq_of_thrown_some net es mR d m h]

theorem runAction_attemptCounts (net : String → Nat → HttpEvent)
    (es : List String) (mR d : Nat) :
    (runAction net es mR d).attemptCounts = (runLoop net mR d es).attemptCounts := by
  cases h : (runLoop net mR d es).thrown with
  | none => rw [runAction_eq_of_thrown_none net es mR d h]
  | some m => rw [runAction_eq_of_thrown_some net es mR d m h]

/-! ### Concrete networks used to exercise the theorems -/

/-- A network on which every probe of every URL answers 200. -/
def netAlwaysOk : String → Nat → HttpEvent :=
  fun _ _ => HttpEvent.response 200 "ok"

/-- A network on which every probe of every URL times out. -/
def netAlwaysTimeout : String → Nat → HttpEvent :=
  fun _ _ => HttpEvent.timeout

/-- A network on which the first probe of any URL times out and every
later probe answers 200. -/
def netSecondTry : String → Nat → HttpEvent :=
  fun _ k => if k = 0 then HttpEvent.timeout else HttpEvent.response 200 "ok"

/-- A network that answers 200 exactly on the trimmed URLs `a` and `b`
and times out anywhere else. -/
def netTrimmedOnly : String → Nat → HttpEvent :=
  fun u _ => if u = "a" ∨ u = "b" then HttpEvent.response 200 "ok" else HttpEvent.timeout

/-! ### Claim theorems -/

/-- C4: a single probe attempt is classified as a success if and only if
the HTTP response status code lies in `[200, 300)`; any other status code,
a connection error, or a timeout makes `checkEndpoint` reject. -/
theorem checkEndpoint_ok_iff_2xx (ev : HttpEvent) :
    (∃ r, checkEndpoint ev = Except.ok r) ↔
    (∃ code data, ev = HttpEvent.response code data ∧ 200 ≤ code ∧ code < 300) := by
  cases ev with
  | response code data =>
    by_cases h : 200 ≤ code ∧ code < 300
    · simp only [checkEndpoint, checkEndpointActions, onResponseEnd, if_pos h, settle]
      exact ⟨fun _ => ⟨code, data, rfl, h.1, h.2⟩, fun _ => ⟨⟨code, data⟩, rfl⟩⟩
    · simp only [checkEndpoint, checkEndpointActions, onResponseEnd, if_neg h, settle]
      constructor
      · intro ⟨r, hr⟩
        exact absurd hr (by simp)
      · intro ⟨code', data', heq, h1, h2⟩
        injection heq with hc hd
        exact absurd ⟨hc ▸ h1, hc ▸ h2⟩ h
  | connError m =>
    simp only [checkEndpoint, checkEndpointActions, onRequestError, settle]
    constructor
    · intro ⟨r, hr⟩
      exact absurd hr (by simp)
    · intro ⟨code, data, heq, _, _⟩
      exact absurd heq (by simp)
  | timeout =>
    simp only [checkEndpoint, checkEndpointActions, onRequestTimeout, settle]
    constructor
    · intro ⟨r, hr⟩
      exact absurd hr (by simp)
    · intro ⟨code, data, heq, _, _⟩
      exact absurd heq (by simp)

/-- C8: on timeout the in-flight request is actively cancelled —
`request.destroy` runs in the timeout handler strictly before the probe is
rejected with `Request timed out`. -/
theorem timeout_destroys_request_before_reject :
    ∃ i j, i < j ∧
      (checkEndpointActions HttpEvent.timeout).get? i = some PromiseAction.destroyRequest ∧
      (checkEndpointActions HttpEvent.timeout).get? j
        = some (PromiseAction.rejectWith "Request timed out") ∧
      checkEndpoint HttpEvent.timeout = Except.error "Request timed out" :=
  ⟨0, 1, Nat.zero_lt_one, rfl, rfl, rfl⟩

/-- C3: if a target's probe first succeeds on (1-based) attempt `k ≤
maxRetries`, its report is `healthy` with `attempts = k`, exactly `k`
probe attempts are issued (none after the success), and nothing is
thrown. -/
theorem first_success_records_healthy (net : String → Nat → HttpEvent)
    (e : String) (mR d k : Nat) (r : HttpResponse) (hk : 1 ≤ k) (hkm : k ≤ mR)
    (hok : probeTarget net (jsTrim e) (k - 1) = Except.ok r)
    (hbefore : ∀ j, j < k - 1 → ∃ m, probeTarget net (jsTrim e) j = Except.error m) :
    checkTarget net e mR d 0
      = { reports := [Report.healthy e k], attemptsIssued := k,
          sleeps := List.replicate (k - 1) (d * 1000), thrown := none } := by
  rw [checkTarget_first_ok net e mR d (k - 1) r (by omega) hok 0 (by omega)
    (fun j _ hj => hbefore j hj)]
  rw [show k - 1 + 1 = k by omega, Nat.sub_zero, Nat.sub_zero]

/-- Exercises `first_success_records_healthy`: on a network whose first
probe times out and whose second answers 200, with budget 3 and delay 7,
the target reports healthy with 2 attempts after one 7000 ms sleep. -/
theorem first_success_records_healthy_witness :
    checkTarget netSecondTry "a" 3 7 0
      = { reports := [Report.healthy "a" 2], attemptsIssued := 2,
          sleeps := List.replicate (2 - 1) (7 * 1000), thrown := none } :=
  first_success_records_healthy netSecondTry "a" 3 7 2 ⟨200, "ok"⟩
    (by decide) (by decide) rfl
    (fun j hj => ⟨"Request timed out", by
      have hj0 : j = 0 := by omega
      subst hj0
      rfl⟩)

/-- C6: with `maxRetries = 1` the loop issues exactly one probe attempt
per processed target and the inter-retry sleep is never invoked — neither
in the per-target loop nor anywhere in the whole run — whether the single
attempt succeeds or fails. -/
theorem budget_one_single_attempt_no_sleep (net : String → Nat → HttpEvent)
    (e : String) (d : Nat) (endpoints : List String) :
    (checkTarget net e 1 d 0).attemptsIssued = 1 ∧
    (checkTarget net e 1 d 0).sleeps = [] ∧
    (∀ c ∈ (runAction net endpoints 1 d).attemptCounts, c = 1) ∧
    (runAction net endpoints 1 d).sleeps = [] := by
  obtain ⟨h1, h2⟩ := checkTarget_budget_one net e d
  refine ⟨h1, h2, ?_, ?_⟩
  · rw [runAction_attemptCounts net endpoints 1 d]
    exact runLoop_budget_one_counts net d endpoints
  · rw [runAction_sleeps net endpoints 1 d]
    exact runLoop_budget_one_sleeps net d endpoints

/-- Exercises `budget_one_single_attempt_no_sleep` on a two-target run
whose first target fails its only attempt: the one processed target was
probed exactly once. -/
theorem budget_one_single_attempt_no_sleep_witness :
    1 ∈ (runAction netAlwaysTimeout ["a", "b"] 1 0).attemptCounts ∧ (1 : Nat) = 1 := by
  have hc : 1 ∈ (runAction netAlwaysTimeout ["a", "b"] 1 0).attemptCounts := by
    simp +decide [runAction, runLoop, checkTarget, probeTarget, checkEndpoint,
      checkEndpointActions, onRequestTimeout, settle, netAlwaysTimeout, jsTrim]
  exact ⟨hc,
    (budget_one_single_attempt_no_sleep netAlwaysTimeout "a" 0 ["a", "b"]).2.2.1 1 hc⟩

/-- C7: in every run, no target is probed more often than the retry
budget, and every `attempts` value recorded in a report is at most
`maxRetries`. -/
theorem attempts_never_exceed_budget (net : String → Nat → HttpEvent)
    (endpoints : List String) (mR d : Nat) :
    (∀ c ∈ (runAction net endpoints mR d).attemptCounts, c ≤ mR) ∧
    (∀ r ∈ (runAction net endpoints mR d).results,
      ∀ e a, r = Report.healthy e a → a ≤ mR) := by
  rw [runAction_attemptCounts net endpoints mR d, runAction_results net endpoints mR d]
  exact ⟨runLoop_counts_le net mR d endpoints,
    runLoop_healthy_attempts_le net mR d endpoints⟩

/-- Exercises `attempts_never_exceed_budget` on a run with one healthy
target probed once under a budget of 2. -/
theorem attempts_never_exceed_budget_witness :
    1 ∈ (runAction netAlwaysOk ["a"] 2 0).attemptCounts ∧ 1 ≤ 2 ∧
    Report.healthy "a" 1 ∈ (runAction netAlwaysOk ["a"] 2 0).results ∧ 1 ≤ 2 := by
  have hc : 1 ∈ (runAction netAlwaysOk ["a"] 2 0).attemptCounts := by
    simp +decide [runAction, runLoop, checkTarget, probeTarget, checkEndpoint,
      checkEndpointActions, onResponseEnd, settle, netAlwaysOk, jsTrim]
  have hr : Report.healthy "a" 1 ∈ (runAction netAlwaysOk ["a"] 2 0).results := by
    simp +decide [runAction, runLoop, checkTarget, probeTarget, checkEndpoint,
      checkEndpointActions, onResponseEnd, settle, netAlwaysOk, jsTrim]
  exact ⟨hc, (attempts_never_exceed_budget netAlwaysOk ["a"] 2 0).1 1 hc,
    hr, (attempts_never_exceed_budget netAlwaysOk ["a"] 2 0).2
      (Report.healthy "a" 1) hr "a" 1 rfl⟩

/-- C2: if a (reached) target fails all `maxRetries ≥ 1` probe attempts,
its entry in `results` is `unhealthy` carrying the message of the last
observed failure, and the overall run is reported as failed via
`setFailed`, whose message also carries that last error message. -/
theorem exhausted_target_unhealthy_run_fails (net : String → Nat → HttpEvent)
    (endpoints : List String) (mR d i : Nat) (e : String) (m : Nat → String)
    (hmR : 1 ≤ mR) (he : endpoints.get? i = some e)
    (hprev : ∀ j, j < i → ∀ ej, endpoints.get? j = some ej →
      ∃ k, k < mR ∧ (probeTarget net (jsTrim ej) k).isOk = true)
    (hfail : ∀ k, k < mR → probeTarget net (jsTrim e) k = Except.error (m k)) :
    (runAction net endpoints mR d).results.get? i
      = some (Report.unhealthy e (m (mR - 1))) ∧
    (runAction net endpoints mR d).failed
      = some ("Deployment check failed: " ++ failMessage e mR (m (mR - 1))) := by
  obtain ⟨hres, hthr⟩ := runLoop_fail_at net mR d m hmR endpoints i e he hprev hfail
  rw [runAction_eq_of_thrown_some net endpoints mR d _ hthr]
  exact ⟨hres, rfl⟩

/-- Exercises `exhausted_target_unhealthy_run_fails`: a single target that
times out on its only allowed attempt is reported unhealthy with the
timeout message and the run fails with the exhaustion message. -/
theorem exhausted_target_unhealthy_run_fails_witness :
    (runAction netAlwaysTimeout ["x"] 1 0).results.get? 0
      = some (Report.unhealthy "x" "Request timed out") ∧
    (runAction netAlwaysTimeout ["x"] 1 0).failed
      = some ("Deployment check failed: "
          ++ failMessage "x" 1 "Request timed out") :=
  exhausted_target_unhealthy_run_fails netAlwaysTimeout ["x"] 1 0 0 "x"
    (fun _ => "Request timed out") (by decide) rfl
    (fun j hj => absurd hj (Nat.not_lt_zero j))
    (fun k _ => rfl)

/-- C9: the action's outputs (`status`, `timestamp`, `results`) are set —
and the serialized `results` list emitted — exactly when every requested
target got a report and every report is healthy; what is emitted is the
built results list; probe attempts are issued only for targets that got a
report, which form a verbatim prefix of the input list, so targets after
the first exhausted one are never probed. -/
theorem outputs_set_iff_all_healthy (net : String → Nat → HttpEvent)
    (endpoints : List String) (mR d : Nat) (hmR : 1 ≤ mR) :
    ((runAction net endpoints mR d).outputs ≠ none ↔
      ((runAction net endpoints mR d).results.length = endpoints.length ∧
        ∀ r ∈ (runAction net endpoints mR d).results, r.isHealthy = true)) ∧
    ((runAction net endpoints mR d).outputs = none ∨
      (runAction net endpoints mR d).outputs
        = some (runAction net endpoints mR d).results) ∧
    (runAction net endpoints mR d).attemptCounts.length
      = (runAction net endpoints mR d).results.length ∧
    (runAction net endpoints mR d).results.map Report.endpoint
      = endpoints.take (runAction net endpoints mR d).results.length := by
  have hcnt : (runAction net endpoints mR d).attemptCounts.length
      = (runAction net endpoints mR d).results.length := by
    rw [runAction_attemptCounts net endpoints mR d, runAction_results net endpoints mR d]
    exact runLoop_counts_len net mR d hmR endpoints
  have hmap : (runAction net endpoints mR d).results.map Report.endpoint
      = endpoints.take (runAction net endpoints mR d).results.length := by
    rw [runAction_results net endpoints mR d]
    exact runLoop_map_endpoint net mR d hmR endpoints
  cases ht : (runLoop net mR d endpoints).thrown with
  | none =>
    obtain ⟨hlen, hall⟩ := runLoop_none_complete net mR d hmR endpoints ht
    refine ⟨?_, ?_, hcnt, hmap⟩
    · rw [runAction_eq_of_thrown_none net endpoints mR d ht]
      exact ⟨fun _ => ⟨hlen, hall⟩, fun _ => Option.some_ne_none _⟩
    · rw [runAction_eq_of_thrown_none net endpoints mR d ht]
      exact Or.inr rfl
  | some m =>
    obtain ⟨r, hr, hunh⟩ := runLoop_some_unhealthy net mR d endpoints m ht
    refine ⟨?_, ?_, hcnt, hmap⟩
    · rw [runAction_eq_of_thrown_some net endpoints mR d m ht]
      constructor
      · intro h
        exact absurd rfl h
      · intro ⟨_, hall⟩
        have hcontra := hall r hr
        rw [hunh] at hcontra
        exact absurd hcontra (by simp)
    · rw [runAction_eq_of_thrown_some net endpoints mR d m ht]
      exact Or.inl rfl

/-- Exercises `outputs_set_iff_all_healthy`: with one target answering 200
on its first probe, the outputs are set. -/
theorem outputs_set_iff_all_healthy_witness :
    (runAction netAlwaysOk ["a"] 1 0).outputs ≠ none := by
  refine ((outputs_set_iff_all_healthy netAlwaysOk ["a"] 1 0 (by decide)).1).mpr ⟨?_, ?_⟩
  · simp +decide [runAction, runLoop, checkTarget, probeTarget, checkEndpoint,
      checkEndpointActions, onResponseEnd, settle, netAlwaysOk, jsTrim]
  · intro r hr
    simp +decide [runAction, runLoop, checkTarget, probeTarget, checkEndpoint,
      checkEndpointActions, onResponseEnd, settle, netAlwaysOk, jsTrim] at hr
    subst hr
    rfl

/-- C1 counterexample: with two requested targets and the first failing
all five allowed attempts, the built `results` list has one report, not
two — the exhaustion error aborts the endpoint loop, so the run does not
contain one report per requested target. -/
theorem run_results_can_lose_targets :
    (runAction netAlwaysTimeout ["a", "b"] 5 0).results.length
      ≠ (["a", "b"] : List String).length := by
  simp +decide [runAction, runLoop, checkTarget, probeTarget, checkEndpoint,
    checkEndpointActions, onRequestTimeout, settle, netAlwaysTimeout, jsTrim]

/-- C1 amended: the built reports always list a verbatim prefix of the
requested targets, one report per processed target in request order; when
the run completes without a thrown exhaustion error (`failed = none`, with
`maxRetries ≥ 1`), there are exactly as many reports as targets. -/
theorem run_results_prefix_in_order (net : String → Nat → HttpEvent)
    (endpoints : List String) (mR d : Nat) (hmR : 1 ≤ mR) :
    (runAction net endpoints mR d).results.map Report.endpoint
      = endpoints.take (runAction net endpoints mR d).results.length ∧
    ((runAction net endpoints mR d).failed = none →
      (runAction net endpoints mR d).results.length = endpoints.length) := by
  constructor
  · rw [runAction_results net endpoints mR d]
    exact runLoop_map_endpoint net mR d hmR endpoints
  · intro hf
    rw [runAction_results net endpoints mR d]
    cases ht : (runLoop net mR d endpoints).thrown with
    | none => exact (runLoop_none_complete net mR d hmR endpoints ht).1
    | some m =>
      rw [runAction_eq_of_thrown_some net endpoints mR d m ht] at hf
      exact absurd hf (by simp)

/-- Exercises `run_results_prefix_in_order` on a fully healthy two-target
run, discharging the `failed = none` hypothesis concretely. -/
theorem run_results_prefix_in_order_witness :
    (runAction netAlwaysOk ["a", "b"] 1 0).results.map Report.endpoint
      = (["a", "b"] : List String).take (runAction netAlwaysOk ["a", "b"] 1 0).results.length ∧
    (runAction netAlwaysOk ["a", "b"] 1 0).results.length
      = (["a", "b"] : List String).length :=
  ⟨(run_results_prefix_in_order netAlwaysOk ["a", "b"] 1 0 (by decide)).1,
    (run_results_prefix_in_order netAlwaysOk ["a", "b"] 1 0 (by decide)).2
      (by simp +decide [runAction, runLoop, checkTarget, probeTarget, checkEndpoint,
        checkEndpointActions, onResponseEnd, settle, netAlwaysOk, jsTrim])⟩

/-- C5 counterexample: with the `retry-delay` input string `"0"`, the
parsed delay is the default 30 (`parseInt("0")` is `0`, which is falsy in
`parseInt(...) || 30`), so a retried target sleeps 30000 ms between its
attempts — not zero. -/
theorem retry_delay_input_zero_sleeps_thirty :
    parseIntInput "0" 30 = 30 ∧
    (runFromInputs netSecondTry "a" "3" "0").sleeps = [30000] ∧
    (runFromInputs netSecondTry "a" "3" "0").sleeps ≠ [0] := by
  refine ⟨by decide, ?_, ?_⟩
  · simp +decide [runFromInputs, runAction, runLoop, checkTarget, probeTarget,
      checkEndpoint, checkEndpointActions, onRequestTimeout, onResponseEnd, settle,
      netSecondTry, jsTrim, parseIntInput, jsParseInt, parseDigits, splitEndpoints,
      splitCommaAux]
  · simp +decide [runFromInputs, runAction, runLoop, checkTarget, probeTarget,
      checkEndpoint, checkEndpointActions, onRequestTimeout, onResponseEnd, settle,
      netSecondTry, jsTrim, parseIntInput, jsParseInt, parseDigits, splitEndpoints,
      splitCommaAux]

/-- C5 amended: the `retry-delay` input `"0"` parses to the default 30 and
every sleep in such a run lasts 30000 ms; retries are back-to-back (every
sleep 0 ms) exactly when the `retryDelay` *value* reaching the loop is 0,
a value the input string `"0"` does not produce. -/
theorem retry_delay_zero_value_back_to_back :
    parseIntInput "0" 30 = 30 ∧
    (∀ (net : String → Nat → HttpEvent) (input mRi : String),
      ∀ s ∈ (runFromInputs net input mRi "0").sleeps, s = 30 * 1000) ∧
    (∀ (net : String → Nat → HttpEvent) (endpoints : List String) (mR : Nat),
      ∀ s ∈ (runAction net endpoints mR 0).sleeps, s = 0) := by
  refine ⟨by decide, ?_, ?_⟩
  · intro net input mRi s hs
    unfold runFromInputs at hs
    rw [runAction_sleeps] at hs
    rw [show (parseIntInput "0" 30).toNat = 30 by decide] at hs
    exact runLoop_sleeps_mem net _ 30 _ s hs
  · intro net endpoints mR s hs
    rw [runAction_sleeps] at hs
    have hmem := runLoop_sleeps_mem net mR 0 endpoints s hs
    simpa using hmem

/-- Exercises `retry_delay_zero_value_back_to_back`: a run configured with
the input `"0"` contains a 30000 ms sleep, and a run whose loop-level
delay value is 0 sleeps 0 ms. -/
theorem retry_delay_zero_value_back_to_back_witness :
    30000 ∈ (runFromInputs netSecondTry "a" "3" "0").sleeps ∧ (30000 : Nat) = 30 * 1000 ∧
    0 ∈ (runAction netSecondTry ["a"] 3 0).sleeps ∧ (0 : Nat) = 0 := by
  have h1 : 30000 ∈ (runFromInputs netSecondTry "a" "3" "0").sleeps := by
    simp +decide [runFromInputs, runAction, runLoop, checkTarget, probeTarget,
      checkEndpoint, checkEndpointActions, onRequestTimeout, onResponseEnd, settle,
      netSecondTry, jsTrim, parseIntInput, jsParseInt, parseDigits, splitEndpoints,
      splitCommaAux]
  have h2 : 0 ∈ (runAction netSecondTry ["a"] 3 0).sleeps := by
    simp +decide [runAction, runLoop, checkTarget, probeTarget, checkEndpoint,
      checkEndpointActions, onRequestTimeout, onResponseEnd, settle, netSecondTry, jsTrim]
  exact ⟨h1, retry_delay_zero_value_back_to_back.2.1 netSecondTry "a" "3" 30000 h1,
    h2, retry_delay_zero_value_back_to_back.2.2 netSecondTry ["a"] 3 0 h2⟩

/-- C10: the `endpoints` input is split on `,`; the untrimmed pieces are
what the reports record verbatim (so surrounding whitespace survives into
the output records), while the network is only ever consulted at the
whitespace-trimmed piece. -/
theorem untrimmed_recorded_trimmed_probed (net : String → Nat → HttpEvent)
    (input mRi dI : String) (hmR : 1 ≤ (parseIntInput mRi 5).toNat) :
    (runFromInputs net input mRi dI).results.map Report.endpoint
      = (splitEndpoints input).take (runFromInputs net input mRi dI).results.length ∧
    ∀ net' : String → Nat → HttpEvent,
      (∀ e ∈ splitEndpoints input, ∀ k, net (jsTrim e) k = net' (jsTrim e) k) →
      runFromInputs net input mRi dI = runFromInputs net' input mRi dI := by
  constructor
  · unfold runFromInputs
    rw [runAction_results]
    exact runLoop_map_endpoint net _ _ hmR _
  · intro net' hnet
    unfold runFromInputs
    simp only [runAction]
    rw [runLoop_net_congr net net' ((parseIntInput mRi 5).toNat)
      ((parseIntInput dI 30).toNat) (splitEndpoints input) hnet]

/-- Exercises `untrimmed_recorded_trimmed_probed` on input `" a ,b"`: the
reports record `" a "` and `"b"` verbatim, and replacing the network by
one that only answers on the trimmed URLs `a` and `b` changes nothing. -/
theorem untrimmed_recorded_trimmed_probed_witness :
    (runFromInputs netAlwaysOk " a ,b" "1" "0").results.map Report.endpoint
      = (splitEndpoints " a ,b").take
          (runFromInputs netAlwaysOk " a ,b" "1" "0").results.length ∧
    runFromInputs netAlwaysOk " a ,b" "1" "0"
      = runFromInputs netTrimmedOnly " a ,b" "1" "0" := by
  have hnet : ∀ e ∈ splitEndpoints " a ,b", ∀ k,
      netAlwaysOk (jsTrim e) k = netTrimmedOnly (jsTrim e) k := by
    have hsplit : splitEndpoints " a ,b" = [" a ", "b"] := by decide
    rw [hsplit]
    intro e he k
    simp only [List.mem_cons, List.mem_singleton] at he
    rcases he with rfl | rfl | hfalse
    · simp +decide [netAlwaysOk, netTrimmedOnly]
    · simp +decide [netAlwaysOk, netTrimmedOnly]
    · simp at hfalse
  exact ⟨(untrimmed_recorded_trimmed_probed netAlwaysOk " a ,b" "1" "0" (by decide)).1,
    (untrimmed_recorded_trimmed_probed netAlwaysOk " a ,b" "1" "0" (by decide)).2
      netTrimmedOnly hnet⟩

end DeploymentCheck
